import Mathlib

set_option maxRecDepth 4000

/-!
Shallow embedding of the xpad-sync engine (src/src/file_monitor.py) in Lean 4.

Modelling conventions:
* Python strings are modelled as `List Char`; note text is treated as ASCII,
  following the spec's design note that the title sanitizer is effectively
  ASCII-only (spec section 9).  `pyIsSpace` / `pyIsAlnum` model `str.isspace`
  and `str.isalnum` on that fragment.
* Python dicts that map strings to values are modelled as association lists
  with distinct keys; `dictInsert` models `d[k] = v` (update in place for an
  existing key, append for a new one, matching insertion-order semantics).
* External effects are parameters: the SHA-256 hex digest (`hashlib`) is an
  explicit function argument `H`, timestamps produced by `datetime.now` are
  explicit arguments, and the success of a file write is an explicit boolean
  (an I/O error raised by the write corresponds to `false`).
* Fallible code returns `Option`: `generate_filename` returns `none` exactly
  where the Python code raises (the unbound `content_hash` in the length
  limiting branch when `include_hash` is disabled), and `save_note_file`
  returns `none` where the Python code returns `None`.
-/

namespace XpadSync

/-- A source identity (the Python-side string key, e.g. an absolute path). -/
abbrev Ident := List Char

/-- Model of Python `str.isspace` for the ASCII fragment. -/
def pyIsSpace (c : Char) : Bool :=
  c = ' ' || c = '\t' || c = '\n' || c = '\r' || c = '\x0b' || c = '\x0c'

/-- Model of Python `str.isalnum` on the ASCII fragment (spec section 9
    licenses the ASCII-only reading of the sanitizer). -/
def pyIsAlnum (c : Char) : Bool := c.isAlphanum

/-- Python `str.strip()`: remove leading and trailing whitespace. -/
def pyStrip (l : List Char) : List Char :=
  ((l.dropWhile pyIsSpace).reverse.dropWhile pyIsSpace).reverse

/-- Python `s.split('\n')` (keeps empty pieces, as Python does). -/
def splitOnNl : List Char → List (List Char)
  | [] => [[]]
  | c :: cs =>
    match splitOnNl cs with
    | [] => [[]]
    | l :: ls => if c = '\n' then [] :: l :: ls else (c :: l) :: ls

/-- Helper for Python `str.split()` with no argument: accumulate the current
    word (reversed) while scanning. -/
def wordsAux (p : Char → Bool) : List Char → List Char → List (List Char)
  | [], acc => if acc.isEmpty then [] else [acc.reverse]
  | c :: cs, acc =>
    if p c then
      if acc.isEmpty then wordsAux p cs [] else acc.reverse :: wordsAux p cs []
    else wordsAux p cs (c :: acc)

/-- Python `str.split()` with no argument: words separated by whitespace runs. -/
def pySplit (l : List Char) : List (List Char) := wordsAux pyIsSpace l []

/-- Python slice `l[:k]` for an `int` bound `k` (negative bounds count from
    the end). -/
def pyTake (k : Int) (l : List Char) : List Char :=
  if 0 ≤ k then l.take k.toNat else l.take (l.length - (-k).toNat)

/-- Byte length of one character under UTF-8, as produced by
    Python `str.encode('utf-8')`. -/
def charUtf8Size (c : Char) : Nat :=
  if c.toNat ≤ 0x7F then 1
  else if c.toNat ≤ 0x7FF then 2
  else if c.toNat ≤ 0xFFFF then 3
  else 4

/-- `len(s.encode('utf-8'))`. -/
def utf8Len (l : List Char) : Nat := (l.map charUtf8Size).sum

/-- Python dict assignment `d[k] = v` on an association list with distinct
    keys: replace in place, or append at the end for a new key. -/
def dictInsert {β : Type} : List (Ident × β) → Ident → β → List (Ident × β)
  | [], k, v => [(k, v)]
  | (a, b) :: ps, k, v =>
    if a = k then (k, v) :: ps else (a, b) :: dictInsert ps k v

/-- Writing a file named `f` into a directory listing: creates the name if
    absent, overwrites (same listing) if present. -/
def insertFile (f : Ident) (files : List Ident) : List Ident :=
  if f ∈ files then files else f :: files

/-! ## Configuration (`SyncConfig` dataclass)

Path fields and the timestamp pattern are external I/O concerns and are not
modelled; timestamps appear as explicit string arguments at each call site.
The Python field `prefix` is named `namePrefix` here (`prefix` is not usable
as a Lean field name). -/

structure SyncConfig where
  note_format : List Char
  debounce_seconds : ℚ
  max_file_size_mb : Nat
  namePrefix : List Char
  include_hash : Bool
  title_max_length : Int
deriving DecidableEq

/-- The dataclass defaults of `SyncConfig`. -/
def defaultConfig : SyncConfig :=
  { note_format := "markdown".toList
    debounce_seconds := 2
    max_file_size_mb := 10
    namePrefix := "xpad_note_".toList
    include_hash := true
    title_max_length := 50 }

/-! ## Content processor (`NoteProcessor`) -/

/-- `lines = [line.strip() for line in content.split('\n') if line.strip()]`,
    then `lines[0]` when it exists. -/
def firstNonBlankLine (content : List Char) : Option (List Char) :=
  (((splitOnNl content).map pyStrip).filter (fun l => !l.isEmpty)).head?

/-- The cleaning pipeline applied to the first line in `extract_title`:
    `title.lstrip('#').strip()`, removal of `*` and `_`, and whitespace
    normalization via `' '.join(title.split())`. -/
def cleanTitle (t0 : List Char) : List Char :=
  let t1 := pyStrip (t0.dropWhile (fun c => c = '#'))
  let t2 := t1.filter (fun c => !(c = '*' || c = '_'))
  List.intercalate [' '] (pySplit t2)

/-- The length truncation in `extract_title`:
    `title[:max_length - 3] + "..."` when `len(title) > max_length`. -/
def truncTitle (maxLen : Int) (t : List Char) : List Char :=
  if (t.length : Int) > maxLen then pyTake (maxLen - 3) t ++ "...".toList else t

/-- The filename sanitization in `extract_title`: keep alphanumeric, space,
    hyphen and underscore, then turn spaces into underscores. -/
def sanitizeTitle (t : List Char) : List Char :=
  (t.filter (fun c => pyIsAlnum c || c = ' ' || c = '-' || c = '_')).map
    (fun c => if c = ' ' then '_' else c)

/-- The branch of `extract_title` on the first non-blank line (when none
    exists, `lines` is empty and the early `"Untitled Note"` return fires). -/
def titleOfLine (cfg : SyncConfig) : Option (List Char) → List Char
  | none => "Untitled Note".toList
  | some t0 =>
    let t := sanitizeTitle (truncTitle cfg.title_max_length (cleanTitle t0))
    if t = [] then "Untitled_Note".toList else t

/-- `NoteProcessor.extract_title` (file_monitor.py lines 62-87). -/
def extract_title (cfg : SyncConfig) (content : List Char) : List Char :=
  if pyStrip content = [] then "Untitled Note".toList
  else titleOfLine cfg (firstNonBlankLine content)

/-- `NoteProcessor.calculate_content_hash`: the external SHA-256 hex digest
    `H` truncated to 8 characters. -/
def calculate_content_hash (H : List Char → List Char) (content : List Char) :
    List Char :=
  (H content).take 8

/-- `NoteProcessor.format_content` (file_monitor.py lines 93-117);
    `nowIso` is the `datetime.now().isoformat()` string of the call. -/
def format_content (cfg : SyncConfig) (content source_file nowIso : List Char) :
    List Char :=
  if cfg.note_format = "markdown".toList then
    "# ".toList ++ extract_title cfg content ++ "\n\n".toList ++
      pyStrip content ++
      "\n\n---\n*Synced from Xpad*  \n*Source: ".toList ++ source_file ++
      "*  \n*Timestamp: ".toList ++ nowIso ++ "*\n".toList
  else
    pyStrip content ++
      "\n\n---\nSynced from Xpad\nSource: ".toList ++ source_file ++
      "\nTimestamp: ".toList ++ nowIso ++ "\n".toList

/-- `NoteProcessor.generate_filename` (file_monitor.py lines 119-141);
    `nowName` is the `strftime` timestamp of the call.  Returns `none` on the
    `NameError` path: when `include_hash` is disabled the length-limiting
    branch reads the unbound local `content_hash` and raises. -/
def generate_filename (H : List Char → List Char) (cfg : SyncConfig)
    (content nowName : List Char) : Option (List Char) :=
  let title := extract_title cfg content
  let ext := if cfg.note_format = "markdown".toList
             then ".md".toList else ".txt".toList
  if cfg.include_hash then
    let ch := calculate_content_hash H content
    let filename := cfg.namePrefix ++ '_' :: title ++ '_' :: nowName ++
      '_' :: ch ++ ext
    if filename.length > 200 then
      let maxTitleLen : Int :=
        200 - (nowName.length : Int) - (ch.length : Int) - 20
      some (cfg.namePrefix ++ '_' :: pyTake maxTitleLen title ++
        '_' :: nowName ++ '_' :: ch ++ ext)
    else some filename
  else
    let filename := cfg.namePrefix ++ '_' :: title ++ '_' :: nowName ++ ext
    if filename.length > 200 then none
    else some filename

/-! ## Metadata ledger and sync target (`GoogleDriveSync`) -/

/-- One entry of `self.file_registry` (the persisted metadata ledger). -/
structure SyncRecord where
  output_file : List Char
  content_hash : List Char
  last_synced : List Char
  file_size : Nat
deriving DecidableEq

/-- The mutable state `GoogleDriveSync` acts on: the in-memory ledger
    (`file_registry`) and the names present in the target directory. -/
structure SyncState where
  registry : List (Ident × SyncRecord)
  files : List Ident
deriving DecidableEq

/-- `GoogleDriveSync._load_metadata` (file_monitor.py lines 158-168), with
    the persisted file and the JSON parser as parameters: `file = none`
    models a missing metadata file, and a `parse` failure models malformed
    content.  The returned boolean records whether the recoverable error was
    logged.  The function is total: no input raises. -/
def _load_metadata (parse : List Char → Except (List Char) (List (Ident × SyncRecord)))
    (file : Option (List Char)) : List (Ident × SyncRecord) × Bool :=
  match file with
  | none => ([], false)
  | some raw =>
    match parse raw with
    | .ok m => (m, false)
    | .error _ => ([], true)

/-- `GoogleDriveSync.save_note_file` (file_monitor.py lines 178-211).
    `writeOk = false` models an I/O error raised by the file write (caught by
    the `except` clause, which returns `None`).  A `none` from
    `generate_filename` is likewise caught and turned into `None` before any
    state is touched.  The size check compares the UTF-8 byte length of the
    formatted content against `max_file_size_mb` megabytes. -/
def save_note_file (H : List Char → List Char) (cfg : SyncConfig)
    (content source_file nowIso nowName : List Char) (writeOk : Bool)
    (st : SyncState) : Option (List Char) × SyncState :=
  let formatted := format_content cfg content source_file nowIso
  match generate_filename H cfg content nowName with
  | none => (none, st)
  | some filename =>
    if utf8Len formatted > cfg.max_file_size_mb * 1048576 then (none, st)
    else if !writeOk then (none, st)
    else
      (some filename,
       { registry := dictInsert st.registry source_file
           { output_file := filename
             content_hash := calculate_content_hash H content
             last_synced := nowIso
             file_size := formatted.length }
         files := insertFile filename st.files })

/-- `GoogleDriveSync.is_content_changed` (file_monitor.py lines 213-221). -/
def is_content_changed (H : List Char → List Char)
    (registry : List (Ident × SyncRecord)) (source_file content : List Char) :
    Bool :=
  match List.lookup source_file registry with
  | none => true
  | some r => calculate_content_hash H content != r.content_hash

/-- `GoogleDriveSync.cleanup_orphaned_files` (file_monitor.py lines 223-242).
    The Python loop deletes each orphan's recorded output file (skipping
    ones already gone) and then deletes its ledger record; since the
    per-orphan operations touch disjoint keys, the loop is modelled as the
    equivalent filters over the ledger and the directory listing. -/
def cleanup_orphaned_files (active : List Ident) (st : SyncState) : SyncState :=
  let orphaned := st.registry.filter (fun p => decide (p.1 ∉ active))
  { registry := st.registry.filter (fun p => decide (p.1 ∈ active))
    files := st.files.filter
      (fun f => orphaned.all (fun p => p.2.output_file != f)) }

/-! ## Debounce scheduler (`XpadFileMonitor` and `_process_pending_syncs`)

`pending` models `self.pending_syncs : Dict[str, float]` (times as `ℚ`);
`fired` records, in order, each `sync_note` invocation made by the tick
processor, paired with the tick time that triggered it. -/

structure SchedState where
  pending : List (Ident × ℚ)
  fired : List (Ident × ℚ)
deriving DecidableEq

/-- `XpadFileMonitor._schedule_sync` (file_monitor.py lines 255-259):
    `pending_syncs[file_path] = time.time() + debounce_seconds`. -/
def _schedule_sync (cfg : SyncConfig) (file_path : Ident) (tnow : ℚ)
    (s : SchedState) : SchedState :=
  { s with pending := dictInsert s.pending file_path (tnow + cfg.debounce_seconds) }

/-- `XpadGDriveSync._process_pending_syncs` (file_monitor.py lines 419-435):
    every pending entry whose scheduled time has elapsed is removed and a
    sync is fired for it. -/
def _process_pending_syncs (tnow : ℚ) (s : SchedState) : SchedState :=
  let ready := s.pending.filter (fun q => decide (q.2 ≤ tnow))
  { pending := s.pending.filter (fun q => !decide (q.2 ≤ tnow))
    fired := s.fired ++ ready.map (fun q => (q.1, tnow)) }

/-- An observable event of the monitoring loop: a change/creation
    notification for a recognized content file (handled by
    `on_modified`/`on_created` via `_schedule_sync`), or one iteration of the
    1-second main loop (`_process_pending_syncs`). -/
inductive SchedEvent where
  | notify (p : Ident) (t : ℚ)
  | tick (t : ℚ)
deriving DecidableEq

/-- The wall-clock time at which an event occurs. -/
def SchedEvent.time : SchedEvent → ℚ
  | .notify _ t => t
  | .tick t => t

/-- One event of the monitoring loop applied to the scheduler state. -/
def schedStep (cfg : SyncConfig) (s : SchedState) : SchedEvent → SchedState
  | .notify p t => _schedule_sync cfg p t s
  | .tick t => _process_pending_syncs t s

/-- A whole observed event sequence applied to the scheduler state. -/
def runSched (cfg : SyncConfig) (evs : List SchedEvent) (s : SchedState) :
    SchedState :=
  evs.foldl (schedStep cfg) s

/-- The notification times for identity `p` occurring in an event list. -/
def pTimes (p : Ident) (evs : List SchedEvent) : List ℚ :=
  evs.filterMap (fun e => match e with
    | .notify q t => if q = p then some t else none
    | .tick _ => none)

/-- The pending entries for identity `p`. -/
def pendingFor (p : Ident) (s : SchedState) : List (Ident × ℚ) :=
  s.pending.filter (fun q => decide (q.1 = p))

/-- The syncs fired for identity `p`, with their tick times. -/
def firesFor (p : Ident) (s : SchedState) : List (Ident × ℚ) :=
  s.fired.filter (fun q => decide (q.1 = p))

/-! ## Sync orchestrator (`XpadGDriveSync`) -/

/-- `XpadGDriveSync.sync_note` (file_monitor.py lines 329-356).
    `fileExists` models the `file_path.exists()` check, `raw` the text read
    from the file (decode errors are replaced, never raised), `writeOk` the
    outcome of the underlying file write. -/
def sync_note (H : List Char → List Char) (cfg : SyncConfig)
    (fileExists : Bool) (raw source_file nowIso nowName : List Char)
    (writeOk force : Bool) (st : SyncState) : Bool × SyncState :=
  if !fileExists then (false, st)
  else
    let content := pyStrip raw
    if content = [] then (false, st)
    else if !force && !is_content_changed H st.registry source_file content then
      (true, st)
    else
      let r := save_note_file H cfg content source_file nowIso nowName writeOk st
      (r.1.isSome, r.2)

/-- The state evolution of the per-note loop of `sync_all_notes`:
    `notes` are the discovered `(path, raw content)` pairs, `w` gives the
    write outcome for each path. -/
def runNotes (H : List Char → List Char) (cfg : SyncConfig)
    (w : Ident → Bool) (nowIso nowName : List Char) (force : Bool)
    (notes : List (Ident × List Char)) (st : SyncState) : SyncState :=
  notes.foldl
    (fun s note =>
      (sync_note H cfg true note.2 note.1 nowIso nowName (w note.1) force s).2)
    st

/-- `XpadGDriveSync.sync_all_notes` (file_monitor.py lines 358-378):
    discovery yields `notes`; each is synced in order, then orphaned ledger
    entries are reclaimed against the discovered set.  An empty discovery
    returns `{}` immediately (no cleanup). -/
def sync_all_notes (H : List Char → List Char) (cfg : SyncConfig)
    (w : Ident → Bool) (nowIso nowName : List Char) (force : Bool)
    (notes : List (Ident × List Char)) (st : SyncState) :
    List (Ident × Bool) × SyncState :=
  if notes.isEmpty then ([], st)
  else
    let folded := notes.foldl
      (fun (acc : List (Ident × Bool) × SyncState) note =>
        let r := sync_note H cfg true note.2 note.1 nowIso nowName
          (w note.1) force acc.2
        (acc.1 ++ [(note.1, r.1)], r.2))
      ([], st)
    (folded.1, cleanup_orphaned_files (notes.map Prod.fst) folded.2)

/-- The (state-independent) failure condition of `save_note_file`: the
    filename generation raises, the formatted content exceeds the size
    bound, or the file write raises. -/
def save_fails (H : List Char → List Char) (cfg : SyncConfig)
    (content src nowIso nowName : List Char) (writeOk : Bool) : Bool :=
  (generate_filename H cfg content nowName).isNone ||
    decide (utf8Len (format_content cfg content src nowIso) >
      cfg.max_file_size_mb * 1048576) ||
    !writeOk

/-- The invariant established for a discovered note by one pass of
    `sync_all_notes`: its content is empty, or the ledger stores its current
    fingerprint, or saving it fails independently of the ledger state. -/
def NoteOK (H : List Char → List Char) (cfg : SyncConfig) (w : Ident → Bool)
    (nowIso nowName : List Char) (s : SyncState) (note : Ident × List Char) :
    Prop :=
  pyStrip note.2 = [] ∨
  (∃ r, List.lookup note.1 s.registry = some r ∧
    r.content_hash = calculate_content_hash H (pyStrip note.2)) ∨
  save_fails H cfg (pyStrip note.2) note.1 nowIso nowName (w note.1) = true

/-! ## Concrete instances used by witnesses -/

/-- A stand-in for the external SHA-256 hex digest, used only to instantiate
    witnesses of theorems that hold for every digest function. -/
def mockHash : List Char → List Char := fun _ => "0123456789abcdef".toList

/-- A configuration with fingerprint inclusion disabled and a large title
    bound, reaching the length-limiting branch of `generate_filename`. -/
def cfgNoHash : SyncConfig :=
  { defaultConfig with include_hash := false, title_max_length := 300 }

/-! ## Helper lemmas on the dictionary model -/

theorem lookup_cons_self {β : Type} (ps : List (Ident × β)) (k : Ident)
    (v : β) : List.lookup k ((k, v) :: ps) = some v := by
  simp [List.lookup]

theorem lookup_cons_ne {β : Type} (ps : List (Ident × β)) (a : Ident) (b : β)
    (k : Ident) (h : k ≠ a) :
    List.lookup k ((a, b) :: ps) = List.lookup k ps := by
  have hb : (k == a) = false := by
    rw [beq_eq_false_iff_ne]
    exact h
  simp [List.lookup, hb]

theorem lookup_dictInsert_self {β : Type} (l : List (Ident × β)) (k : Ident)
    (v : β) : List.lookup k (dictInsert l k v) = some v := by
  induction l with
  | nil => simp [dictInsert, List.lookup]
  | cons p ps ih =>
    cases p with
    | mk a b =>
      by_cases h : a = k
      · rw [dictInsert, if_pos h, lookup_cons_self]
      · rw [dictInsert, if_neg h, lookup_cons_ne _ _ _ _ (fun he => h he.symm),
          ih]

theorem lookup_dictInsert_ne {β : Type} (l : List (Ident × β)) (k k' : Ident)
    (v : β) (h : k' ≠ k) :
    List.lookup k' (dictInsert l k v) = List.lookup k' l := by
  induction l with
  | nil =>
    rw [dictInsert]
    rw [lookup_cons_ne _ _ _ _ h]
  | cons p ps ih =>
    cases p with
    | mk a b =>
      by_cases hp : a = k
      · subst hp
        rw [dictInsert, if_pos rfl, lookup_cons_ne _ _ _ _ h,
          lookup_cons_ne _ _ _ _ h]
      · rw [dictInsert, if_neg hp]
        by_cases hk : k' = a
        · subst hk
          simp [List.lookup]
        · rw [lookup_cons_ne _ _ _ _ hk, lookup_cons_ne _ _ _ _ hk, ih]

theorem lookup_filter_mem (l : List (Ident × SyncRecord)) (active : List Ident)
    (k : Ident) (h : k ∈ active) :
    List.lookup k (l.filter (fun p => decide (p.1 ∈ active))) =
      List.lookup k l := by
  induction l with
  | nil => simp
  | cons p ps ih =>
    cases p with
    | mk a b =>
      by_cases hk : k = a
      · subst hk
        rw [List.filter_cons, if_pos (by simpa using h), lookup_cons_self,
          lookup_cons_self]
      · rw [List.filter_cons, lookup_cons_ne _ _ _ _ hk]
        by_cases hm : a ∈ active
        · rw [if_pos (by simpa using hm), lookup_cons_ne _ _ _ _ hk, ih]
        · rw [if_neg (by simpa using hm), ih]

theorem lookup_filter_not_mem (l : List (Ident × SyncRecord))
    (active : List Ident) (k : Ident) (h : k ∉ active) :
    List.lookup k (l.filter (fun p => decide (p.1 ∈ active))) = none := by
  induction l with
  | nil => simp
  | cons p ps ih =>
    cases p with
    | mk a b =>
      rw [List.filter_cons]
      by_cases hm : a ∈ active
      · have hk : k ≠ a := fun he => h (he ▸ hm)
        rw [if_pos (by simpa using hm), lookup_cons_ne _ _ _ _ hk, ih]
      · rw [if_neg (by simpa using hm), ih]

/-! ## C5 — change detection -/

/-- C5: `is_content_changed` returns true exactly when no ledger record
    exists for the identity or the computed fingerprint differs from the
    stored one. -/
theorem is_content_changed_iff (H : List Char → List Char)
    (registry : List (Ident × SyncRecord)) (src content : List Char) :
    is_content_changed H registry src content = true ↔
      (List.lookup src registry = none ∨
       ∃ r, List.lookup src registry = some r ∧
         calculate_content_hash H content ≠ r.content_hash) := by
  cases h : List.lookup src registry with
  | none => simp [is_content_changed, h]
  | some r =>
    simp only [is_content_changed, h]
    constructor
    · intro hb
      exact Or.inr ⟨r, rfl, by simpa [bne_iff_ne] using hb⟩
    · rintro (hc | ⟨r', hr', hne⟩)
      · exact absurd hc (by simp)
      · injection hr' with hrr
        subst hrr
        simpa [bne_iff_ne] using hne

/-! ## C8 — the two fallback titles -/

/-- C8: `extract_title` returns the phrase `"Untitled Note"` for blank input,
    and the sanitized fallback `"Untitled_Note"` for non-blank input whose
    first non-blank line sanitizes to the empty title. -/
theorem extract_title_fallbacks (cfg : SyncConfig) (content : List Char) :
    (pyStrip content = [] → extract_title cfg content = "Untitled Note".toList)
    ∧ (∀ t0, pyStrip content ≠ [] → firstNonBlankLine content = some t0 →
        sanitizeTitle (truncTitle cfg.title_max_length (cleanTitle t0)) = [] →
        extract_title cfg content = "Untitled_Note".toList) := by
  constructor
  · intro h
    simp [extract_title, h]
  · intro t0 h1 h2 h3
    rw [extract_title, if_neg h1, h2]
    simp [titleOfLine, h3]

/-- Witness for C8 at concrete inputs: whitespace-only input yields the
    spaced phrase, an all-marker line yields the underscored fallback. -/
theorem extract_title_fallbacks_witness :
    extract_title defaultConfig "   ".toList = "Untitled Note".toList ∧
    extract_title defaultConfig "###".toList = "Untitled_Note".toList := by
  refine ⟨(extract_title_fallbacks defaultConfig "   ".toList).1 (by decide),
    (extract_title_fallbacks defaultConfig "###".toList).2 "###".toList
      (by decide) (by decide) (by decide)⟩

/-! ## C7 — title truncation and the ellipsis marker -/

/-- C7 counterexample: for a 200-character first line under the default
    50-character bound, the returned title is the 47-character truncation
    with no ellipsis marker at its end, and its length is not the configured
    maximum; the ellipsis appended before sanitization has been removed. -/
theorem extract_title_ellipsis_cex :
    extract_title defaultConfig (List.replicate 200 'a') =
      List.replicate 47 'a' ∧
    ("...".toList.isSuffixOf
        (extract_title defaultConfig (List.replicate 200 'a'))) = false ∧
    (extract_title defaultConfig (List.replicate 200 'a')).length ≠ 50 := by
  refine ⟨by decide, by decide, by decide⟩

/-- C7 as amended: when the cleaned first line exceeds the configured bound,
    the code truncates it to (bound − 3) characters and appends an ellipsis,
    but the subsequent filename sanitization drops the ellipsis periods, so
    the result is the sanitized truncation without any ellipsis marker (or
    the underscored fallback if that sanitization is empty). -/
theorem extract_title_truncation (cfg : SyncConfig) (content t0 : List Char)
    (h1 : pyStrip content ≠ []) (h2 : firstNonBlankLine content = some t0)
    (h3 : ((cleanTitle t0).length : Int) > cfg.title_max_length) :
    sanitizeTitle (pyTake (cfg.title_max_length - 3) (cleanTitle t0) ++
        "...".toList) =
      sanitizeTitle (pyTake (cfg.title_max_length - 3) (cleanTitle t0)) ∧
    extract_title cfg content =
      (if sanitizeTitle (pyTake (cfg.title_max_length - 3) (cleanTitle t0)) = []
       then "Untitled_Note".toList
       else sanitizeTitle (pyTake (cfg.title_max_length - 3) (cleanTitle t0))) := by
  have hdrop : ∀ t : List Char,
      sanitizeTitle (t ++ "...".toList) = sanitizeTitle t := by
    intro t
    have hdot : pyIsAlnum '.' = false := by decide
    simp [sanitizeTitle, List.filter_append, hdot]
  refine ⟨hdrop _, ?_⟩
  rw [extract_title, if_neg h1, h2, titleOfLine]
  rw [truncTitle, if_pos h3, hdrop]

/-- Witness for the amended C7 at the concrete 200-character line. -/
theorem extract_title_truncation_witness :
    extract_title defaultConfig (List.replicate 200 'a') =
      List.replicate 47 'a' := by
  have h := extract_title_truncation defaultConfig (List.replicate 200 'a')
    (List.replicate 200 'a') (by decide) (by decide) (by decide)
  rw [h.2]
  decide

/-! ## C6 — filename length limiting -/

/-- C6: the Python code's length-limiting branch reads the local
    `content_hash` even when `include_hash` is disabled, where it was never
    assigned, so with fingerprint inclusion disabled and a composed name
    longer than 200 characters `generate_filename` raises `NameError`
    (modelled as `none`) instead of returning a shortened filename.  With the
    fingerprint enabled on the same content the branch behaves as specified:
    only the title is shortened, every other segment intact. -/
theorem generate_filename_no_hash_crash :
    generate_filename mockHash cfgNoHash (List.replicate 250 'a')
      "20260101_000000".toList = none ∧
    generate_filename mockHash { cfgNoHash with include_hash := true }
      (List.replicate 250 'a') "20260101_000000".toList =
      some ("xpad_note_".toList ++ '_' :: List.replicate 157 'a' ++
        '_' :: "20260101_000000".toList ++ '_' :: "01234567".toList ++
        ".md".toList) := by
  refine ⟨by decide, by decide⟩

/-! ## C9 — ledger loading is self-healing -/

/-- C9: loading the ledger yields the empty mapping on a missing file, the
    empty mapping with a logged recoverable error on malformed content, and
    the parsed mapping otherwise; being a total function, it never raises. -/
theorem load_metadata_spec
    (parse : List Char → Except (List Char) (List (Ident × SyncRecord)))
    (raw e : List Char) (m : List (Ident × SyncRecord)) :
    _load_metadata parse none = ([], false) ∧
    (parse raw = .error e → _load_metadata parse (some raw) = ([], true)) ∧
    (parse raw = .ok m → _load_metadata parse (some raw) = (m, false)) := by
  refine ⟨rfl, fun h => ?_, fun h => ?_⟩ <;> simp [_load_metadata, h]

/-- Witness for C9 with a concrete failing parser and a concrete succeeding
    parser state. -/
theorem load_metadata_spec_witness :
    _load_metadata (fun _ => .error "bad".toList) (some "x".toList) =
      ([], true) ∧
    _load_metadata (fun _ => .ok []) (some "x".toList) = ([], false) := by
  exact ⟨(load_metadata_spec (fun _ => .error "bad".toList) "x".toList
      "bad".toList []).2.1 rfl,
    (load_metadata_spec (fun _ => .ok []) "x".toList [] []).2.2 rfl⟩

/-! ## C2 — failed saves leave the ledger untouched -/

/-- C2: whenever `save_note_file` returns a failure (`none`) — in particular
    when the formatted content exceeds the configured size bound, or when the
    file write raises — the whole state (ledger and target directory) is left
    exactly as it was; the ledger is changed only by a successful write. -/
theorem save_note_file_failure_frame (H : List Char → List Char)
    (cfg : SyncConfig) (content src nowIso nowName : List Char)
    (writeOk : Bool) (st : SyncState) :
    ((save_note_file H cfg content src nowIso nowName writeOk st).1 = none →
      (save_note_file H cfg content src nowIso nowName writeOk st).2 = st) ∧
    (utf8Len (format_content cfg content src nowIso) >
        cfg.max_file_size_mb * 1048576 →
      (save_note_file H cfg content src nowIso nowName writeOk st).1 = none) ∧
    (writeOk = false →
      (save_note_file H cfg content src nowIso nowName writeOk st).1 = none) ∧
    ((save_note_file H cfg content src nowIso nowName writeOk st).2.registry ≠
        st.registry →
      (save_note_file H cfg content src nowIso nowName writeOk st).1.isSome =
        true) := by
  unfold save_note_file
  cases hg : generate_filename H cfg content nowName with
  | none => simp
  | some fn =>
    by_cases hsz : utf8Len (format_content cfg content src nowIso) >
        cfg.max_file_size_mb * 1048576
    · simp [hsz]
    · cases writeOk with
      | false => simp [hsz]
      | true => simp [hsz]

/-- Witness for C2: a failing write against the empty state changes
    nothing. -/
theorem save_note_file_failure_frame_witness :
    (save_note_file mockHash defaultConfig "hi".toList "s".toList
      "t1".toList "t2".toList false ⟨[], []⟩).1 = none ∧
    (save_note_file mockHash defaultConfig "hi".toList "s".toList
      "t1".toList "t2".toList false ⟨[], []⟩).2 = ⟨[], []⟩ := by
  have h := save_note_file_failure_frame mockHash defaultConfig "hi".toList
    "s".toList "t1".toList "t2".toList false ⟨[], []⟩
  exact ⟨h.2.2.1 rfl, h.1 (h.2.2.1 rfl)⟩

/-! ## C4 — orphan reclamation -/

/-- C4: `cleanup_orphaned_files` removes exactly the ledger records whose
    keys are not in the active set (deleting each orphan's recorded output
    file from the target directory, tolerating its absence), and leaves the
    record of every active identity unchanged together with every file not
    recorded by an orphan. -/
theorem cleanup_orphaned_files_spec (active : List Ident) (st : SyncState)
    (id f : Ident) :
    (id ∈ active →
      List.lookup id (cleanup_orphaned_files active st).registry =
        List.lookup id st.registry) ∧
    (id ∉ active →
      List.lookup id (cleanup_orphaned_files active st).registry = none) ∧
    (∀ p ∈ st.registry, p.1 ∉ active →
      p.2.output_file ∉ (cleanup_orphaned_files active st).files) ∧
    (f ∈ st.files →
      (∀ p ∈ st.registry, p.1 ∉ active → p.2.output_file ≠ f) →
      f ∈ (cleanup_orphaned_files active st).files) := by
  refine ⟨fun h => lookup_filter_mem st.registry active id h,
    fun h => lookup_filter_not_mem st.registry active id h, ?_, ?_⟩
  · intro p hp hpa hmem
    rw [cleanup_orphaned_files] at hmem
    have h2 := (List.mem_filter.mp hmem).2
    rw [List.all_eq_true] at h2
    have := h2 p (List.mem_filter.mpr ⟨hp, by simpa using hpa⟩)
    simp at this
  · intro hf hno
    rw [cleanup_orphaned_files]
    refine List.mem_filter.mpr ⟨hf, ?_⟩
    rw [List.all_eq_true]
    intro p hp
    have hmem := List.mem_filter.mp hp
    have : p.2.output_file ≠ f := hno p hmem.1 (by simpa using hmem.2)
    simpa using this

/-- Witness for C4 on a two-record ledger with one orphan. -/
theorem cleanup_orphaned_files_spec_witness :
    List.lookup "b".toList
        (cleanup_orphaned_files ["b".toList]
          ⟨[("a".toList, ⟨"outA".toList, "h1".toList, "t".toList, 1⟩),
            ("b".toList, ⟨"outB".toList, "h2".toList, "t".toList, 2⟩)],
           ["outA".toList, "outB".toList]⟩).registry =
      some ⟨"outB".toList, "h2".toList, "t".toList, 2⟩ ∧
    List.lookup "a".toList
        (cleanup_orphaned_files ["b".toList]
          ⟨[("a".toList, ⟨"outA".toList, "h1".toList, "t".toList, 1⟩),
            ("b".toList, ⟨"outB".toList, "h2".toList, "t".toList, 2⟩)],
           ["outA".toList, "outB".toList]⟩).registry = none ∧
    "outA".toList ∉
      (cleanup_orphaned_files ["b".toList]
          ⟨[("a".toList, ⟨"outA".toList, "h1".toList, "t".toList, 1⟩),
            ("b".toList, ⟨"outB".toList, "h2".toList, "t".toList, 2⟩)],
           ["outA".toList, "outB".toList]⟩).files ∧
    "outB".toList ∈
      (cleanup_orphaned_files ["b".toList]
          ⟨[("a".toList, ⟨"outA".toList, "h1".toList, "t".toList, 1⟩),
            ("b".toList, ⟨"outB".toList, "h2".toList, "t".toList, 2⟩)],
           ["outA".toList, "outB".toList]⟩).files := by
  have h1 := cleanup_orphaned_files_spec ["b".toList]
    ⟨[("a".toList, ⟨"outA".toList, "h1".toList, "t".toList, 1⟩),
      ("b".toList, ⟨"outB".toList, "h2".toList, "t".toList, 2⟩)],
     ["outA".toList, "outB".toList]⟩ "b".toList "outB".toList
  have h2 := cleanup_orphaned_files_spec ["b".toList]
    ⟨[("a".toList, ⟨"outA".toList, "h1".toList, "t".toList, 1⟩),
      ("b".toList, ⟨"outB".toList, "h2".toList, "t".toList, 2⟩)],
     ["outA".toList, "outB".toList]⟩ "a".toList "outB".toList
  refine ⟨by rw [h1.1 (by decide)]; decide, h2.2.1 (by decide), ?_, ?_⟩
  · exact h1.2.2.1 ("a".toList, ⟨"outA".toList, "h1".toList, "t".toList, 1⟩)
      (by decide) (by decide)
  · exact h1.2.2.2 (by decide) (by decide)

/-! ## C10 — skipped-unchanged is a success outcome -/

/-- C10: for an existing source whose stripped content is non-empty and whose
    fingerprint matches its ledger record, `sync_note` without force returns
    `true` while changing nothing; the empty-content skip returns `false`
    (also changing nothing). -/
theorem sync_note_unchanged_skip (H : List Char → List Char)
    (cfg : SyncConfig) (raw src nowIso nowName : List Char) (writeOk : Bool)
    (st : SyncState) (r : SyncRecord) :
    (pyStrip raw ≠ [] → List.lookup src st.registry = some r →
      calculate_content_hash H (pyStrip raw) = r.content_hash →
      sync_note H cfg true raw src nowIso nowName writeOk false st =
        (true, st)) ∧
    (pyStrip raw = [] →
      sync_note H cfg true raw src nowIso nowName writeOk false st =
        (false, st)) := by
  constructor
  · intro h1 h2 h3
    have hch : is_content_changed H st.registry src (pyStrip raw) = false := by
      simp [is_content_changed, h2, h3]
    simp [sync_note, h1, hch]
  · intro h1
    simp [sync_note, h1]

/-- Witness for C10: a matching record skips with success, empty content
    skips with failure. -/
theorem sync_note_unchanged_skip_witness :
    sync_note mockHash defaultConfig true "hi".toList "s".toList "t1".toList
        "t2".toList true false
        ⟨[("s".toList, ⟨"out".toList, "01234567".toList, "t".toList, 5⟩)],
         ["out".toList]⟩ =
      (true,
       ⟨[("s".toList, ⟨"out".toList, "01234567".toList, "t".toList, 5⟩)],
        ["out".toList]⟩) ∧
    sync_note mockHash defaultConfig true "  ".toList "s".toList "t1".toList
        "t2".toList true false ⟨[], []⟩ = (false, ⟨[], []⟩) := by
  refine ⟨(sync_note_unchanged_skip mockHash defaultConfig "hi".toList
      "s".toList "t1".toList "t2".toList true
      ⟨[("s".toList, ⟨"out".toList, "01234567".toList, "t".toList, 5⟩)],
       ["out".toList]⟩
      ⟨"out".toList, "01234567".toList, "t".toList, 5⟩).1
      (by decide) (by decide) (by decide),
    (sync_note_unchanged_skip mockHash defaultConfig "  ".toList "s".toList
      "t1".toList "t2".toList true ⟨[], []⟩
      ⟨"out".toList, "01234567".toList, "t".toList, 5⟩).2 (by decide)⟩

/-! ## C1 — idempotence of `sync_all_notes` -/

theorem utf8Len_append (a b : List Char) :
    utf8Len (a ++ b) = utf8Len a + utf8Len b := by
  simp [utf8Len]

theorem utf8Len_cons (c : Char) (l : List Char) :
    utf8Len (c :: l) = charUtf8Size c + utf8Len l := by
  simp [utf8Len]

theorem is_content_changed_none (H : List Char → List Char)
    (registry : List (Ident × SyncRecord)) (src content : List Char)
    (h : List.lookup src registry = none) :
    is_content_changed H registry src content = true := by
  unfold is_content_changed
  rw [h]

theorem is_content_changed_some (H : List Char → List Char)
    (registry : List (Ident × SyncRecord)) (src content : List Char)
    (r : SyncRecord) (h : List.lookup src registry = some r) :
    is_content_changed H registry src content =
      (calculate_content_hash H content != r.content_hash) := by
  unfold is_content_changed
  rw [h]

theorem save_note_file_of_fails (H : List Char → List Char) (cfg : SyncConfig)
    (content src nowIso nowName : List Char) (writeOk : Bool) (st : SyncState)
    (h : save_fails H cfg content src nowIso nowName writeOk = true) :
    save_note_file H cfg content src nowIso nowName writeOk st = (none, st) := by
  unfold save_fails at h
  unfold save_note_file
  cases hg : generate_filename H cfg content nowName with
  | none => simp
  | some fn =>
    rw [hg] at h
    simp only [Option.isNone_some, Bool.false_or, Bool.or_eq_true,
      decide_eq_true_eq, Bool.not_eq_true'] at h
    by_cases hsz : utf8Len (format_content cfg content src nowIso) >
        cfg.max_file_size_mb * 1048576
    · simp [hsz]
    · rcases h with h | h
      · exact absurd h hsz
      · simp [hsz, h]

theorem save_note_file_of_ok (H : List Char → List Char) (cfg : SyncConfig)
    (content src nowIso nowName : List Char) (writeOk : Bool) (st : SyncState)
    (h : save_fails H cfg content src nowIso nowName writeOk = false) :
    ∃ fn, generate_filename H cfg content nowName = some fn ∧
      save_note_file H cfg content src nowIso nowName writeOk st =
        (some fn,
         { registry := dictInsert st.registry src
             { output_file := fn
               content_hash := calculate_content_hash H content
               last_synced := nowIso
               file_size := (format_content cfg content src nowIso).length }
           files := insertFile fn st.files }) := by
  unfold save_fails at h
  simp only [Bool.or_eq_false_iff] at h
  obtain ⟨⟨h1, h2⟩, h3⟩ := h
  cases hg : generate_filename H cfg content nowName with
  | none => rw [hg] at h1; simp at h1
  | some fn =>
    refine ⟨fn, rfl, ?_⟩
    unfold save_note_file
    rw [hg]
    have hsz : ¬ utf8Len (format_content cfg content src nowIso) >
        cfg.max_file_size_mb * 1048576 := by simpa using h2
    have hw : writeOk = true := by simpa using h3
    simp [hsz, hw]

theorem save_note_file_other_lookup (H : List Char → List Char)
    (cfg : SyncConfig) (content src nowIso nowName : List Char)
    (writeOk : Bool) (st : SyncState) (p : Ident) (hp : p ≠ src) :
    List.lookup p
        ((save_note_file H cfg content src nowIso nowName writeOk st).2).registry
      = List.lookup p st.registry := by
  by_cases hf : save_fails H cfg content src nowIso nowName writeOk = true
  · rw [save_note_file_of_fails H cfg content src nowIso nowName writeOk st hf]
  · obtain ⟨fn, _, he⟩ := save_note_file_of_ok H cfg content src nowIso nowName
      writeOk st (by simpa using hf)
    rw [he]
    exact lookup_dictInsert_ne st.registry src p _ hp

theorem sync_note_other_lookup (H : List Char → List Char) (cfg : SyncConfig)
    (raw src nowIso nowName : List Char) (writeOk force : Bool)
    (st : SyncState) (p : Ident) (hp : p ≠ src) :
    List.lookup p
        ((sync_note H cfg true raw src nowIso nowName writeOk force st).2).registry
      = List.lookup p st.registry := by
  rw [sync_note]
  split
  · rfl
  · dsimp only
    split
    · rfl
    · split
      · rfl
      · exact save_note_file_other_lookup H cfg (pyStrip raw) src nowIso
          nowName writeOk st p hp

theorem utf8Len_format_content_congr (cfg : SyncConfig)
    (content src nowIso nowIso' : List Char)
    (h : utf8Len nowIso = utf8Len nowIso') :
    utf8Len (format_content cfg content src nowIso) =
      utf8Len (format_content cfg content src nowIso') := by
  unfold format_content
  by_cases hf : cfg.note_format = "markdown".toList
  · simp only [if_pos hf]
    simp [utf8Len_append, utf8Len_cons, h]
  · simp only [if_neg hf]
    simp [utf8Len_append, utf8Len_cons, h]

theorem generate_filename_isNone_congr (H : List Char → List Char)
    (cfg : SyncConfig) (content nowName nowName' : List Char)
    (h : nowName.length = nowName'.length) :
    (generate_filename H cfg content nowName).isNone =
      (generate_filename H cfg content nowName').isNone := by
  by_cases hh : cfg.include_hash
  · simp [generate_filename, hh, apply_ite Option.isNone]
  · simp [generate_filename, hh, apply_ite Option.isNone, h]

theorem save_fails_ts_congr (H : List Char → List Char) (cfg : SyncConfig)
    (content src nowIso nowName nowIso' nowName' : List Char) (writeOk : Bool)
    (hIso : utf8Len nowIso = utf8Len nowIso')
    (hName : nowName.length = nowName'.length) :
    save_fails H cfg content src nowIso nowName writeOk =
      save_fails H cfg content src nowIso' nowName' writeOk := by
  unfold save_fails
  rw [generate_filename_isNone_congr H cfg content nowName nowName' hName,
    utf8Len_format_content_congr cfg content src nowIso nowIso' hIso]

theorem sync_note_noop_of_NoteOK (H : List Char → List Char)
    (cfg : SyncConfig) (w : Ident → Bool) (nowIso nowName : List Char)
    (s : SyncState) (note : Ident × List Char)
    (hok : NoteOK H cfg w nowIso nowName s note) :
    (sync_note H cfg true note.2 note.1 nowIso nowName (w note.1) false s).2
      = s := by
  rcases hok with h | ⟨r, hr, hh⟩ | hfail
  · simp [sync_note, h]
  · by_cases hc : pyStrip note.2 = []
    · simp [sync_note, hc]
    · have hch : is_content_changed H s.registry note.1 (pyStrip note.2) =
          false := by
        rw [is_content_changed_some H s.registry note.1 (pyStrip note.2) r hr,
          hh, bne_self_eq_false]
      simp [sync_note, hc, hch]
  · by_cases hc : pyStrip note.2 = []
    · simp [sync_note, hc]
    · by_cases hch : is_content_changed H s.registry note.1 (pyStrip note.2)
      · simp [sync_note, hc, hch,
          save_note_file_of_fails H cfg (pyStrip note.2) note.1 nowIso nowName
            (w note.1) s hfail]
      · simp [sync_note, hc, hch]

theorem sync_note_establishes_NoteOK (H : List Char → List Char)
    (cfg : SyncConfig) (w : Ident → Bool)
    (nowIso nowName nowIso' nowName' : List Char) (s : SyncState)
    (note : Ident × List Char)
    (hIso : utf8Len nowIso = utf8Len nowIso')
    (hName : nowName.length = nowName'.length) :
    NoteOK H cfg w nowIso' nowName'
      ((sync_note H cfg true note.2 note.1 nowIso nowName (w note.1) false s).2)
      note := by
  by_cases hc : pyStrip note.2 = []
  · exact Or.inl hc
  · by_cases hch : is_content_changed H s.registry note.1 (pyStrip note.2)
    · by_cases hf :
          save_fails H cfg (pyStrip note.2) note.1 nowIso nowName (w note.1)
            = true
      · refine Or.inr (Or.inr ?_)
        rw [← save_fails_ts_congr H cfg (pyStrip note.2) note.1 nowIso nowName
          nowIso' nowName' (w note.1) hIso hName]
        exact hf
      · obtain ⟨fn, hg, he⟩ := save_note_file_of_ok H cfg (pyStrip note.2)
          note.1 nowIso nowName (w note.1) s (by simpa using hf)
        refine Or.inr (Or.inl ?_)
        rw [sync_note]
        simp only [hc, if_neg hc, hch, Bool.not_true, Bool.and_false,
          Bool.false_eq_true, if_false]
        rw [he]
        exact ⟨_, lookup_dictInsert_self s.registry note.1 _, rfl⟩
    · refine Or.inr (Or.inl ?_)
      have hnoop :
          (sync_note H cfg true note.2 note.1 nowIso nowName (w note.1) false
            s).2 = s := by
        simp [sync_note, hc, hch]
      rw [hnoop]
      cases hr : List.lookup note.1 s.registry with
      | none =>
        rw [is_content_changed_none H s.registry note.1 (pyStrip note.2) hr]
          at hch
        exact absurd rfl hch
      | some r =>
        rw [is_content_changed_some H s.registry note.1 (pyStrip note.2) r hr]
          at hch
        simp only [Bool.not_eq_true, bne_eq_false_iff_eq] at hch
        exact ⟨r, rfl, hch.symm⟩

theorem NoteOK_mono (H : List Char → List Char) (cfg : SyncConfig)
    (w : Ident → Bool) (nowIso nowName : List Char) (s s' : SyncState)
    (note : Ident × List Char)
    (hlk : List.lookup note.1 s'.registry = List.lookup note.1 s.registry)
    (hok : NoteOK H cfg w nowIso nowName s note) :
    NoteOK H cfg w nowIso nowName s' note := by
  rcases hok with h | ⟨r, hr, hh⟩ | h
  · exact Or.inl h
  · exact Or.inr (Or.inl ⟨r, hlk ▸ hr, hh⟩)
  · exact Or.inr (Or.inr h)

theorem runNotes_cons (H : List Char → List Char) (cfg : SyncConfig)
    (w : Ident → Bool) (nowIso nowName : List Char) (force : Bool)
    (note : Ident × List Char) (rest : List (Ident × List Char))
    (st : SyncState) :
    runNotes H cfg w nowIso nowName force (note :: rest) st =
      runNotes H cfg w nowIso nowName force rest
        ((sync_note H cfg true note.2 note.1 nowIso nowName (w note.1) force
          st).2) := rfl

theorem runNotes_other_lookup (H : List Char → List Char) (cfg : SyncConfig)
    (w : Ident → Bool) (nowIso nowName : List Char) (force : Bool)
    (notes : List (Ident × List Char)) (st : SyncState) (p : Ident)
    (hp : p ∉ notes.map Prod.fst) :
    List.lookup p (runNotes H cfg w nowIso nowName force notes st).registry =
      List.lookup p st.registry := by
  induction notes generalizing st with
  | nil => rfl
  | cons q rest ih =>
    rw [List.map_cons, List.mem_cons, not_or] at hp
    rw [runNotes_cons, ih _ hp.2,
      sync_note_other_lookup H cfg q.2 q.1 nowIso nowName (w q.1) force st p
        hp.1]

theorem runNotes_post_NoteOK (H : List Char → List Char) (cfg : SyncConfig)
    (w : Ident → Bool) (nowIso nowName nowIso' nowName' : List Char)
    (notes : List (Ident × List Char)) (st : SyncState)
    (hnd : (notes.map Prod.fst).Nodup)
    (hIso : utf8Len nowIso = utf8Len nowIso')
    (hName : nowName.length = nowName'.length) :
    ∀ note ∈ notes,
      NoteOK H cfg w nowIso' nowName'
        (runNotes H cfg w nowIso nowName false notes st) note := by
  induction notes generalizing st with
  | nil => intro note hn; cases hn
  | cons q rest ih =>
    rw [List.map_cons, List.nodup_cons] at hnd
    intro note hn
    rcases List.mem_cons.mp hn with hq | hr
    · subst hq
      rw [runNotes_cons]
      refine NoteOK_mono H cfg w nowIso' nowName' _ _ note ?_
        (sync_note_establishes_NoteOK H cfg w nowIso nowName nowIso' nowName'
          st note hIso hName)
      exact runNotes_other_lookup H cfg w nowIso nowName false rest _ note.1
        hnd.1
    · rw [runNotes_cons]
      exact ih _ hnd.2 note hr

theorem cleanup_preserves_NoteOK (H : List Char → List Char)
    (cfg : SyncConfig) (w : Ident → Bool) (nowIso nowName : List Char)
    (active : List Ident) (s : SyncState) (note : Ident × List Char)
    (hmem : note.1 ∈ active)
    (hok : NoteOK H cfg w nowIso nowName s note) :
    NoteOK H cfg w nowIso nowName (cleanup_orphaned_files active s) note :=
  NoteOK_mono H cfg w nowIso nowName s _ note
    (lookup_filter_mem s.registry active note.1 hmem) hok

theorem runNotes_noop_of_NoteOK (H : List Char → List Char)
    (cfg : SyncConfig) (w : Ident → Bool) (nowIso nowName : List Char)
    (notes : List (Ident × List Char)) (s : SyncState)
    (hok : ∀ note ∈ notes, NoteOK H cfg w nowIso nowName s note) :
    runNotes H cfg w nowIso nowName false notes s = s := by
  induction notes with
  | nil => rfl
  | cons q rest ih =>
    rw [runNotes_cons,
      sync_note_noop_of_NoteOK H cfg w nowIso nowName s q
        (hok q (List.mem_cons_self q rest))]
    exact ih fun note hn => hok note (List.mem_cons_of_mem q hn)

theorem cleanup_orphaned_files_idem (active : List Ident) (st : SyncState) :
    cleanup_orphaned_files active (cleanup_orphaned_files active st) =
      cleanup_orphaned_files active st := by
  have hreg : (st.registry.filter (fun p => decide (p.1 ∈ active))).filter
      (fun p => decide (p.1 ∈ active)) =
      st.registry.filter (fun p => decide (p.1 ∈ active)) := by
    rw [List.filter_filter]
    simp
  have horph : (st.registry.filter (fun p => decide (p.1 ∈ active))).filter
      (fun p => decide (p.1 ∉ active)) = [] := by
    rw [List.filter_filter]
    refine List.filter_eq_nil_iff.mpr ?_
    intro p _
    by_cases h : p.1 ∈ active <;> simp [h]
  rw [cleanup_orphaned_files, cleanup_orphaned_files]
  simp only [hreg, horph, List.all_nil]
  congr 1
  exact List.filter_true _

theorem sync_all_notes_foldl_snd (H : List Char → List Char)
    (cfg : SyncConfig) (w : Ident → Bool) (nowIso nowName : List Char)
    (force : Bool) (notes : List (Ident × List Char))
    (acc : List (Ident × Bool)) (st : SyncState) :
    (notes.foldl
      (fun (acc : List (Ident × Bool) × SyncState) note =>
        let r := sync_note H cfg true note.2 note.1 nowIso nowName
          (w note.1) force acc.2
        (acc.1 ++ [(note.1, r.1)], r.2))
      (acc, st)).2 = runNotes H cfg w nowIso nowName force notes st := by
  induction notes generalizing acc st with
  | nil => rfl
  | cons q rest ih =>
    rw [List.foldl_cons, runNotes_cons]
    exact ih _ _

theorem sync_all_notes_snd (H : List Char → List Char) (cfg : SyncConfig)
    (w : Ident → Bool) (nowIso nowName : List Char) (force : Bool)
    (notes : List (Ident × List Char)) (st : SyncState) :
    (sync_all_notes H cfg w nowIso nowName force notes st).2 =
      if notes.isEmpty then st
      else cleanup_orphaned_files (notes.map Prod.fst)
        (runNotes H cfg w nowIso nowName force notes st) := by
  by_cases he : notes.isEmpty
  · simp [sync_all_notes, he]
  · simp only [sync_all_notes, he, if_false, Bool.false_eq_true]
    rw [sync_all_notes_foldl_snd]

/-- C1: running `sync_all_notes` a second time over the same discovered
    sources, with no content change (and timestamps of the same byte and
    character length, as any two outputs of the same strftime patterns are),
    leaves the whole target state — every ledger record and the set of files
    in the target directory — exactly as the first call produced it: the
    second call writes nothing new. -/
theorem sync_all_notes_idempotent (H : List Char → List Char)
    (cfg : SyncConfig) (w : Ident → Bool)
    (nowIso nowName nowIso' nowName' : List Char)
    (notes : List (Ident × List Char)) (st : SyncState)
    (hnd : (notes.map Prod.fst).Nodup)
    (hIso : utf8Len nowIso = utf8Len nowIso')
    (hName : nowName.length = nowName'.length) :
    (sync_all_notes H cfg w nowIso' nowName' false notes
        (sync_all_notes H cfg w nowIso nowName false notes st).2).2 =
      (sync_all_notes H cfg w nowIso nowName false notes st).2 := by
  by_cases he : notes.isEmpty
  · simp [sync_all_notes_snd, he]
  · have hpost := runNotes_post_NoteOK H cfg w nowIso nowName nowIso' nowName'
      notes st hnd hIso hName
    have hpost2 : ∀ note ∈ notes,
        NoteOK H cfg w nowIso' nowName'
          (cleanup_orphaned_files (notes.map Prod.fst)
            (runNotes H cfg w nowIso nowName false notes st)) note := by
      intro note hn
      exact cleanup_preserves_NoteOK H cfg w nowIso' nowName' _ _ note
        (List.mem_map_of_mem Prod.fst hn) (hpost note hn)
    rw [sync_all_notes_snd H cfg w nowIso nowName false notes st, if_neg he,
      sync_all_notes_snd, if_neg he,
      runNotes_noop_of_NoteOK H cfg w nowIso' nowName' notes _ hpost2,
      cleanup_orphaned_files_idem]

/-- Witness for C1 on a concrete one-note discovery with timestamps of equal
    length. -/
theorem sync_all_notes_idempotent_witness :
    (sync_all_notes mockHash defaultConfig (fun _ => true)
        "2026-01-01T00:00:01".toList "20260101_000001".toList false
        [("content-1".toList, "Hello".toList)]
        (sync_all_notes mockHash defaultConfig (fun _ => true)
          "2026-01-01T00:00:00".toList "20260101_000000".toList false
          [("content-1".toList, "Hello".toList)] ⟨[], []⟩).2).2 =
      (sync_all_notes mockHash defaultConfig (fun _ => true)
        "2026-01-01T00:00:00".toList "20260101_000000".toList false
        [("content-1".toList, "Hello".toList)] ⟨[], []⟩).2 :=
  sync_all_notes_idempotent mockHash defaultConfig (fun _ => true)
    "2026-01-01T00:00:00".toList "20260101_000000".toList
    "2026-01-01T00:00:01".toList "20260101_000001".toList
    [("content-1".toList, "Hello".toList)] ⟨[], []⟩
    (by decide) (by decide) (by decide)

/-! ## C3 — debounce coalescing

Step lemmas about `_schedule_sync` and `_process_pending_syncs`, then trace
lemmas about `runSched`. -/

theorem filter_keys_nil {β : Type} (l : List (Ident × β)) (k : Ident)
    (h : k ∉ l.map Prod.fst) :
    l.filter (fun q => decide (q.1 = k)) = [] := by
  induction l with
  | nil => rfl
  | cons x xs ih =>
    rw [List.map_cons, List.mem_cons, not_or] at h
    rw [List.filter_cons, if_neg (by simpa using fun he => h.1 he.symm)]
    exact ih h.2

theorem mem_keys_dictInsert {β : Type} (l : List (Ident × β)) (k x : Ident)
    (v : β) :
    x ∈ (dictInsert l k v).map Prod.fst ↔ x ∈ l.map Prod.fst ∨ x = k := by
  induction l with
  | nil => simp [dictInsert]
  | cons q qs ih =>
    cases q with
    | mk a b =>
      by_cases ha : a = k
      · subst ha
        rw [dictInsert, if_pos rfl, List.map_cons, List.map_cons]
        simp only [List.mem_cons]
        tauto
      · simp only [dictInsert, if_neg ha, List.map_cons, List.mem_cons, ih]
        tauto

theorem nodup_keys_dictInsert {β : Type} (l : List (Ident × β)) (k : Ident)
    (v : β) (h : (l.map Prod.fst).Nodup) :
    ((dictInsert l k v).map Prod.fst).Nodup := by
  induction l with
  | nil => simp [dictInsert]
  | cons q qs ih =>
    cases q with
    | mk a b =>
      rw [List.map_cons, List.nodup_cons] at h
      by_cases ha : a = k
      · subst ha
        rw [dictInsert, if_pos rfl, List.map_cons, List.nodup_cons]
        exact h
      · rw [dictInsert, if_neg ha, List.map_cons, List.nodup_cons]
        refine ⟨fun hm => ?_, ih h.2⟩
        rcases (mem_keys_dictInsert qs k a v).mp hm with hm | hm
        · exact h.1 hm
        · exact ha hm

theorem filter_dictInsert_self {β : Type} (l : List (Ident × β)) (k : Ident)
    (v : β) (h : (l.map Prod.fst).Nodup) :
    (dictInsert l k v).filter (fun q => decide (q.1 = k)) = [(k, v)] := by
  induction l with
  | nil => simp [dictInsert]
  | cons q qs ih =>
    cases q with
    | mk a b =>
      rw [List.map_cons, List.nodup_cons] at h
      by_cases ha : a = k
      · subst ha
        rw [dictInsert, if_pos rfl, List.filter_cons, if_pos (by simp)]
        rw [filter_keys_nil qs a h.1]
      · rw [dictInsert, if_neg ha, List.filter_cons,
          if_neg (by simpa using ha), ih h.2]

theorem filter_dictInsert_ne {β : Type} (l : List (Ident × β)) (k p : Ident)
    (v : β) (h : k ≠ p) :
    (dictInsert l k v).filter (fun q => decide (q.1 = p)) =
      l.filter (fun q => decide (q.1 = p)) := by
  induction l with
  | nil => simp [dictInsert, h]
  | cons q qs ih =>
    cases q with
    | mk a b =>
      by_cases ha : a = k
      · subst ha
        rw [dictInsert, if_pos rfl, List.filter_cons, List.filter_cons,
          if_neg (by simpa using h), if_neg (by simpa using h)]
      · rw [dictInsert, if_neg ha, List.filter_cons, List.filter_cons, ih]

theorem filter_swap {α : Type} (f g : α → Bool) (l : List α) :
    (l.filter f).filter g = (l.filter g).filter f := by
  induction l with
  | nil => rfl
  | cons x xs ih =>
    cases hf : f x <;> cases hg : g x <;>
      simp [List.filter_cons, hf, hg, ih]

theorem filter_map_retime (l : List (Ident × ℚ)) (p : Ident) (t : ℚ) :
    (l.map (fun q => (q.1, t))).filter (fun q => decide (q.1 = p)) =
      (l.filter (fun q => decide (q.1 = p))).map (fun q => (q.1, t)) := by
  induction l with
  | nil => rfl
  | cons x xs ih =>
    by_cases hx : x.1 = p <;> simp [List.filter_cons, hx, ih]

theorem pendingFor_schedule_self (cfg : SyncConfig) (p : Ident) (t : ℚ)
    (s : SchedState) (h : (s.pending.map Prod.fst).Nodup) :
    pendingFor p (_schedule_sync cfg p t s) =
      [(p, t + cfg.debounce_seconds)] := by
  unfold pendingFor _schedule_sync
  exact filter_dictInsert_self s.pending p _ h

theorem pendingFor_schedule_ne (cfg : SyncConfig) (q p : Ident) (t : ℚ)
    (s : SchedState) (h : q ≠ p) :
    pendingFor p (_schedule_sync cfg q t s) = pendingFor p s := by
  unfold pendingFor _schedule_sync
  exact filter_dictInsert_ne s.pending q p _ h

theorem firesFor_schedule (cfg : SyncConfig) (q p : Ident) (t : ℚ)
    (s : SchedState) :
    firesFor p (_schedule_sync cfg q t s) = firesFor p s := rfl

theorem nodup_keys_schedule (cfg : SyncConfig) (q : Ident) (t : ℚ)
    (s : SchedState) (h : (s.pending.map Prod.fst).Nodup) :
    (((_schedule_sync cfg q t s).pending).map Prod.fst).Nodup :=
  nodup_keys_dictInsert s.pending q _ h

theorem pendingFor_tick (p : Ident) (t : ℚ) (s : SchedState) :
    pendingFor p (_process_pending_syncs t s) =
      (pendingFor p s).filter (fun q => !decide (q.2 ≤ t)) := by
  unfold pendingFor _process_pending_syncs
  exact filter_swap _ _ s.pending

theorem firesFor_tick (p : Ident) (t : ℚ) (s : SchedState) :
    firesFor p (_process_pending_syncs t s) =
      firesFor p s ++
        ((pendingFor p s).filter (fun q => decide (q.2 ≤ t))).map
          (fun q => (q.1, t)) := by
  unfold firesFor pendingFor _process_pending_syncs
  rw [List.filter_append, filter_map_retime, filter_swap]

theorem nodup_keys_tick (t : ℚ) (s : SchedState)
    (h : (s.pending.map Prod.fst).Nodup) :
    (((_process_pending_syncs t s).pending).map Prod.fst).Nodup :=
  ((List.filter_sublist s.pending).map Prod.fst).nodup h

theorem tick_idle (p : Ident) (t : ℚ) (s : SchedState)
    (h : pendingFor p s = []) :
    pendingFor p (_process_pending_syncs t s) = [] ∧
    firesFor p (_process_pending_syncs t s) = firesFor p s := by
  rw [pendingFor_tick, firesFor_tick, h]
  simp

theorem tick_wait (p : Ident) (t sch : ℚ) (s : SchedState)
    (h : pendingFor p s = [(p, sch)]) (hlt : ¬ sch ≤ t) :
    pendingFor p (_process_pending_syncs t s) = [(p, sch)] ∧
    firesFor p (_process_pending_syncs t s) = firesFor p s := by
  rw [pendingFor_tick, firesFor_tick, h]
  simp [List.filter_cons, hlt]

theorem tick_fire (p : Ident) (t sch : ℚ) (s : SchedState)
    (h : pendingFor p s = [(p, sch)]) (hle : sch ≤ t) :
    pendingFor p (_process_pending_syncs t s) = [] ∧
    firesFor p (_process_pending_syncs t s) = firesFor p s ++ [(p, t)] := by
  rw [pendingFor_tick, firesFor_tick, h]
  simp [List.filter_cons, hle]

theorem runSched_cons (cfg : SyncConfig) (e : SchedEvent)
    (evs : List SchedEvent) (s : SchedState) :
    runSched cfg (e :: evs) s = runSched cfg evs (schedStep cfg s e) := rfl

theorem runSched_append (cfg : SyncConfig) (a b : List SchedEvent)
    (s : SchedState) :
    runSched cfg (a ++ b) s = runSched cfg b (runSched cfg a s) :=
  List.foldl_append _ _ _ _

theorem runSched_nodup_keys (cfg : SyncConfig) (evs : List SchedEvent)
    (s : SchedState) (h : (s.pending.map Prod.fst).Nodup) :
    (((runSched cfg evs s).pending).map Prod.fst).Nodup := by
  induction evs generalizing s with
  | nil => exact h
  | cons e evs ih =>
    rw [runSched_cons]
    cases e with
    | notify q t => exact ih _ (nodup_keys_schedule cfg q t s h)
    | tick t => exact ih _ (nodup_keys_tick t s h)

theorem pTimes_cons_notify_self (p : Ident) (t : ℚ) (evs : List SchedEvent) :
    pTimes p (SchedEvent.notify p t :: evs) = t :: pTimes p evs := by
  simp [pTimes]

theorem pTimes_cons_notify_ne (p q : Ident) (t : ℚ) (evs : List SchedEvent)
    (h : q ≠ p) :
    pTimes p (SchedEvent.notify q t :: evs) = pTimes p evs := by
  simp [pTimes, h]

theorem pTimes_cons_tick (p : Ident) (t : ℚ) (evs : List SchedEvent) :
    pTimes p (SchedEvent.tick t :: evs) = pTimes p evs := by
  simp [pTimes]

theorem pTimes_append (p : Ident) (a b : List SchedEvent) :
    pTimes p (a ++ b) = pTimes p a ++ pTimes p b :=
  List.filterMap_append _ _ _

theorem pTimes_sublist_times (p : Ident) (evs : List SchedEvent) :
    List.Sublist (pTimes p evs) (evs.map SchedEvent.time) := by
  induction evs with
  | nil => exact List.Sublist.refl _
  | cons e evs ih =>
    cases e with
    | notify q t =>
      by_cases hq : q = p
      · subst hq
        rw [pTimes_cons_notify_self]
        exact ih.cons₂ _
      · rw [pTimes_cons_notify_ne p q t evs hq]
        exact ih.cons _
    | tick t =>
      rw [pTimes_cons_tick]
      exact ih.cons _

theorem runSched_idle (cfg : SyncConfig) (p : Ident) :
    ∀ (evs : List SchedEvent) (s : SchedState), pTimes p evs = [] →
      pendingFor p s = [] →
      pendingFor p (runSched cfg evs s) = [] ∧
      firesFor p (runSched cfg evs s) = firesFor p s := by
  intro evs
  induction evs with
  | nil => intro s _ hp; exact ⟨hp, rfl⟩
  | cons e evs ih =>
    intro s hpt hp
    cases e with
    | notify q t =>
      by_cases hq : q = p
      · subst hq
        rw [pTimes_cons_notify_self] at hpt
        simp at hpt
      · rw [pTimes_cons_notify_ne p q t evs hq] at hpt
        rw [runSched_cons]
        simp only [schedStep]
        obtain ⟨h1, h2⟩ := ih (_schedule_sync cfg q t s) hpt
          (by rw [pendingFor_schedule_ne cfg q p t s hq]; exact hp)
        exact ⟨h1, by rw [h2, firesFor_schedule]⟩
    | tick t =>
      rw [pTimes_cons_tick] at hpt
      rw [runSched_cons]
      simp only [schedStep]
      obtain ⟨hp', hf'⟩ := tick_idle p t s hp
      obtain ⟨h1, h2⟩ := ih _ hpt hp'
      exact ⟨h1, by rw [h2, hf']⟩

theorem runSched_fire (cfg : SyncConfig) (p : Ident) :
    ∀ (evs : List SchedEvent) (s : SchedState) (sch : ℚ),
      pTimes p evs = [] → pendingFor p s = [(p, sch)] →
      (∃ t, SchedEvent.tick t ∈ evs ∧ sch ≤ t) →
      ∃ tf, sch ≤ tf ∧
        firesFor p (runSched cfg evs s) = firesFor p s ++ [(p, tf)] ∧
        pendingFor p (runSched cfg evs s) = [] := by
  intro evs
  induction evs with
  | nil =>
    intro s sch _ _ htick
    obtain ⟨t, hmem, _⟩ := htick
    simp at hmem
  | cons e evs ih =>
    intro s sch hpt hp htick
    cases e with
    | notify q t =>
      by_cases hq : q = p
      · subst hq
        rw [pTimes_cons_notify_self] at hpt
        simp at hpt
      · rw [pTimes_cons_notify_ne p q t evs hq] at hpt
        obtain ⟨t0, hmem, h0⟩ := htick
        have hmem' : SchedEvent.tick t0 ∈ evs := by
          rcases List.mem_cons.mp hmem with h | h
          · simp at h
          · exact h
        rw [runSched_cons]
        simp only [schedStep]
        obtain ⟨tf, h1, h2, h3⟩ := ih (_schedule_sync cfg q t s) sch hpt
          (by rw [pendingFor_schedule_ne cfg q p t s hq]; exact hp)
          ⟨t0, hmem', h0⟩
        exact ⟨tf, h1, by rw [h2, firesFor_schedule], h3⟩
    | tick t =>
      rw [pTimes_cons_tick] at hpt
      rw [runSched_cons]
      simp only [schedStep]
      by_cases hle : sch ≤ t
      · obtain ⟨hp', hf'⟩ := tick_fire p t sch s hp hle
        obtain ⟨h1, h2⟩ := runSched_idle cfg p evs _ hpt hp'
        exact ⟨t, hle, by rw [h2, hf'], h1⟩
      · obtain ⟨hp', hf'⟩ := tick_wait p t sch s hp hle
        obtain ⟨t0, hmem, h0⟩ := htick
        have hmem' : SchedEvent.tick t0 ∈ evs := by
          rcases List.mem_cons.mp hmem with h | h
          · injection h with h'
            exact absurd (h' ▸ h0) hle
          · exact h
        obtain ⟨tf, h1, h2, h3⟩ := ih _ sch hpt hp' ⟨t0, hmem', h0⟩
        exact ⟨tf, h1, by rw [h2, hf'], h3⟩

theorem runSched_burst (cfg : SyncConfig) (p : Ident) :
    ∀ (evs : List SchedEvent) (s : SchedState) (sch : ℚ),
      (s.pending.map Prod.fst).Nodup →
      pendingFor p s = [(p, sch)] →
      ((evs.map SchedEvent.time).Pairwise (· ≤ ·)) →
      List.Chain' (fun a b => b < a + cfg.debounce_seconds)
        ((sch - cfg.debounce_seconds) :: pTimes p evs) →
      (pendingFor p (runSched cfg evs s) =
          [(p, (pTimes p evs).getLastD (sch - cfg.debounce_seconds) +
            cfg.debounce_seconds)] ∧
        firesFor p (runSched cfg evs s) = firesFor p s) ∨
      (∃ tf, SchedEvent.tick tf ∈ evs ∧
        (pTimes p evs).getLastD (sch - cfg.debounce_seconds) +
          cfg.debounce_seconds ≤ tf ∧
        firesFor p (runSched cfg evs s) = firesFor p s ++ [(p, tf)] ∧
        pendingFor p (runSched cfg evs s) = []) := by
  intro evs
  induction evs with
  | nil =>
    intro s sch _ hp _ _
    left
    have hx : sch - cfg.debounce_seconds + cfg.debounce_seconds = sch := by
      ring
    have hnil : pTimes p ([] : List SchedEvent) = [] := rfl
    rw [hnil, List.getLastD_nil, hx]
    exact ⟨hp, rfl⟩
  | cons e evs ih =>
    intro s sch hn hp hmono hchain
    rw [List.map_cons] at hmono
    cases e with
    | notify q t =>
      by_cases hq : q = p
      · subst hq
        rw [pTimes_cons_notify_self] at hchain ⊢
        rw [List.chain'_cons] at hchain
        obtain ⟨hlt, hrest⟩ := hchain
        rw [runSched_cons]
        simp only [schedStep]
        have hcancel : t + cfg.debounce_seconds - cfg.debounce_seconds = t :=
          by ring
        have hrest' : List.Chain'
            (fun a b => b < a + cfg.debounce_seconds)
            ((t + cfg.debounce_seconds - cfg.debounce_seconds) ::
              pTimes q evs) := by
          rw [hcancel]; exact hrest
        have hG := ih (_schedule_sync cfg q t s) (t + cfg.debounce_seconds)
          (nodup_keys_schedule cfg q t s hn)
          (pendingFor_schedule_self cfg q t s hn)
          hmono.of_cons hrest'
        rw [hcancel] at hG
        rw [List.getLastD_cons]
        rcases hG with ⟨h1, h2⟩ | ⟨tf, hm, h1, h2, h3⟩
        · exact Or.inl ⟨h1, by rw [h2, firesFor_schedule]⟩
        · exact Or.inr ⟨tf, List.mem_cons_of_mem _ hm, h1,
            by rw [h2, firesFor_schedule], h3⟩
      · rw [pTimes_cons_notify_ne p q t evs hq] at hchain ⊢
        rw [runSched_cons]
        simp only [schedStep]
        have hG := ih (_schedule_sync cfg q t s) sch
          (nodup_keys_schedule cfg q t s hn)
          (by rw [pendingFor_schedule_ne cfg q p t s hq]; exact hp)
          hmono.of_cons hchain
        rcases hG with ⟨h1, h2⟩ | ⟨tf, hm, h1, h2, h3⟩
        · exact Or.inl ⟨h1, by rw [h2, firesFor_schedule]⟩
        · exact Or.inr ⟨tf, List.mem_cons_of_mem _ hm, h1,
            by rw [h2, firesFor_schedule], h3⟩
    | tick t =>
      rw [pTimes_cons_tick] at hchain ⊢
      rw [runSched_cons]
      simp only [schedStep]
      by_cases hle : sch ≤ t
      · have hpe : pTimes p evs = [] := by
          cases hpe : pTimes p evs with
          | nil => rfl
          | cons t' rest =>
            exfalso
            rw [hpe, List.chain'_cons] at hchain
            have hx : sch - cfg.debounce_seconds + cfg.debounce_seconds =
                sch := by ring
            have hlt : t' < sch := by
              have := hchain.1
              linarith [hx]
            have hmem : t' ∈ evs.map SchedEvent.time := by
              have hsub := pTimes_sublist_times p evs
              rw [hpe] at hsub
              exact hsub.subset (List.mem_cons_self t' rest)
            have hts : t ≤ t' := (List.pairwise_cons.mp hmono).1 t' hmem
            linarith
        rw [hpe, List.getLastD_nil]
        have hx : sch - cfg.debounce_seconds + cfg.debounce_seconds = sch :=
          by ring
        rw [hx]
        obtain ⟨hp', hf'⟩ := tick_fire p t sch s hp hle
        obtain ⟨h1, h2⟩ := runSched_idle cfg p evs _ hpe hp'
        exact Or.inr ⟨t, List.mem_cons_self _ _, hle, by rw [h2, hf'], h1⟩
      · obtain ⟨hp', hf'⟩ := tick_wait p t sch s hp hle
        have hG := ih _ sch (nodup_keys_tick t s hn) hp' hmono.of_cons hchain
        rcases hG with ⟨h1, h2⟩ | ⟨tf, hm, h1, h2, h3⟩
        · exact Or.inl ⟨h1, by rw [h2, hf']⟩
        · exact Or.inr ⟨tf, List.mem_cons_of_mem _ hm, h1,
            by rw [h2, hf'], h3⟩

theorem pTimes_first_decomp (p : Ident) :
    ∀ (l : List SchedEvent) (t : ℚ) (ts : List ℚ), pTimes p l = t :: ts →
      ∃ l1 l2, l = l1 ++ SchedEvent.notify p t :: l2 ∧ pTimes p l1 = [] ∧
        pTimes p l2 = ts := by
  intro l
  induction l with
  | nil => intro t ts h; simp [pTimes] at h
  | cons e l ih =>
    intro t ts h
    cases e with
    | notify q t0 =>
      by_cases hq : q = p
      · subst hq
        rw [pTimes_cons_notify_self] at h
        injection h with h1 h2
        subst h1
        exact ⟨[], l, by simp, rfl, h2⟩
      · rw [pTimes_cons_notify_ne p q t0 l hq] at h
        obtain ⟨l1, l2, hl, h1, h2⟩ := ih t ts h
        exact ⟨SchedEvent.notify q t0 :: l1, l2, by rw [hl]; rfl,
          by rw [pTimes_cons_notify_ne p q t0 l1 hq]; exact h1, h2⟩
    | tick t0 =>
      rw [pTimes_cons_tick] at h
      obtain ⟨l1, l2, hl, h1, h2⟩ := ih t ts h
      exact ⟨SchedEvent.tick t0 :: l1, l2, by rw [hl]; rfl,
        by rw [pTimes_cons_tick]; exact h1, h2⟩

theorem getLastD_concat (ts : List ℚ) (a x : ℚ) :
    (ts ++ [a]).getLastD x = a := by
  induction ts generalizing x with
  | nil => rfl
  | cons b bs ih => rw [List.cons_append, List.getLastD_cons, ih]

/-- C3: over any observed event sequence in which the notifications for
    identity `p` form one burst with consecutive gaps below the (positive)
    debounce delay, ending in the notification at time `tN`, and some later
    main-loop tick occurs at or after `tN + debounce`: right after the burst
    the scheduler holds exactly one pending entry for `p`, scheduled at
    `tN + debounce` (last notification wins), and over the whole sequence
    exactly one sync fires for `p`, at a tick no earlier than
    `tN + debounce`.  Events for other identities may be interleaved
    arbitrarily. -/
theorem debounce_coalesces (cfg : SyncConfig) (p : Ident) (s0 : SchedState)
    (trPre trPost : List SchedEvent) (tN : ℚ)
    (hd : 0 < cfg.debounce_seconds)
    (h0p : pendingFor p s0 = []) (h0f : firesFor p s0 = [])
    (h0n : (s0.pending.map Prod.fst).Nodup)
    (hmono : ((trPre ++ SchedEvent.notify p tN :: trPost).map
      SchedEvent.time).Pairwise (· ≤ ·))
    (hchain : List.Chain' (fun a b => b < a + cfg.debounce_seconds)
      (pTimes p (trPre ++ [SchedEvent.notify p tN])))
    (hpost : pTimes p trPost = [])
    (htick : ∃ t, SchedEvent.tick t ∈ trPost ∧
      tN + cfg.debounce_seconds ≤ t) :
    pendingFor p (runSched cfg (trPre ++ [SchedEvent.notify p tN]) s0) =
      [(p, tN + cfg.debounce_seconds)] ∧
    ∃ tf, tN + cfg.debounce_seconds ≤ tf ∧
      firesFor p
          (runSched cfg (trPre ++ SchedEvent.notify p tN :: trPost) s0) =
        [(p, tf)] := by
  have hburst :
      pendingFor p (runSched cfg (trPre ++ [SchedEvent.notify p tN]) s0) =
        [(p, tN + cfg.debounce_seconds)] ∧
      firesFor p (runSched cfg (trPre ++ [SchedEvent.notify p tN]) s0) =
        [] := by
    cases hpre : pTimes p trPre with
    | nil =>
      obtain ⟨h1, h2⟩ := runSched_idle cfg p trPre s0 hpre h0p
      rw [runSched_append]
      have hone : runSched cfg [SchedEvent.notify p tN]
          (runSched cfg trPre s0) =
          _schedule_sync cfg p tN (runSched cfg trPre s0) := rfl
      rw [hone]
      refine ⟨pendingFor_schedule_self cfg p tN _
        (runSched_nodup_keys cfg trPre s0 h0n), ?_⟩
      rw [firesFor_schedule, h2, h0f]
    | cons t1 ts =>
      obtain ⟨l1, l2, hl, hl1, hl2⟩ := pTimes_first_decomp p trPre t1 ts hpre
      obtain ⟨hA1, hA2⟩ := runSched_idle cfg p l1 s0 hl1 h0p
      have hAn := runSched_nodup_keys cfg l1 s0 h0n
      have hBp : pendingFor p
          (_schedule_sync cfg p t1 (runSched cfg l1 s0)) =
          [(p, t1 + cfg.debounce_seconds)] :=
        pendingFor_schedule_self cfg p t1 _ hAn
      have hBf : firesFor p
          (_schedule_sync cfg p t1 (runSched cfg l1 s0)) = [] := by
        rw [firesFor_schedule, hA2, h0f]
      have hBn := nodup_keys_schedule cfg p t1 (runSched cfg l1 s0) hAn
      have hrw : runSched cfg (trPre ++ [SchedEvent.notify p tN]) s0 =
          runSched cfg (l2 ++ [SchedEvent.notify p tN])
            (_schedule_sync cfg p t1 (runSched cfg l1 s0)) := by
        rw [hl]
        have hassoc : (l1 ++ SchedEvent.notify p t1 :: l2) ++
            [SchedEvent.notify p tN] =
            l1 ++ SchedEvent.notify p t1 ::
              (l2 ++ [SchedEvent.notify p tN]) := by
          simp
        rw [hassoc, runSched_append, runSched_cons]
        rfl
      have hsub : List.Sublist
          ((l2 ++ [SchedEvent.notify p tN]).map SchedEvent.time)
          ((trPre ++ SchedEvent.notify p tN :: trPost).map SchedEvent.time)
          := by
        refine List.Sublist.map _ ?_
        rw [hl]
        have hassoc : (l1 ++ SchedEvent.notify p t1 :: l2) ++
            SchedEvent.notify p tN :: trPost =
            l1 ++ SchedEvent.notify p t1 ::
              (l2 ++ SchedEvent.notify p tN :: trPost) := by
          simp
        rw [hassoc]
        have h1 : List.Sublist (l2 ++ [SchedEvent.notify p tN])
            (l2 ++ SchedEvent.notify p tN :: trPost) :=
          List.Sublist.append_left
            (List.Sublist.cons₂ _ (List.nil_sublist trPost)) l2
        have h2 : List.Sublist (l2 ++ SchedEvent.notify p tN :: trPost)
            (SchedEvent.notify p t1 ::
              (l2 ++ SchedEvent.notify p tN :: trPost)) :=
          List.sublist_cons_self _ _
        have h3 : List.Sublist
            (SchedEvent.notify p t1 ::
              (l2 ++ SchedEvent.notify p tN :: trPost))
            (l1 ++ SchedEvent.notify p t1 ::
              (l2 ++ SchedEvent.notify p tN :: trPost)) :=
          List.sublist_append_right _ _
        exact (h1.trans h2).trans h3
      have hmonoSeg := List.Pairwise.sublist hsub hmono
      have hptSeg : pTimes p (trPre ++ [SchedEvent.notify p tN]) =
          t1 :: pTimes p (l2 ++ [SchedEvent.notify p tN]) := by
        rw [hl, pTimes_append, pTimes_append, hl1, pTimes_append]
        rw [pTimes_cons_notify_self]
        simp
      have hchainSeg : List.Chain'
          (fun a b => b < a + cfg.debounce_seconds)
          ((t1 + cfg.debounce_seconds - cfg.debounce_seconds) ::
            pTimes p (l2 ++ [SchedEvent.notify p tN])) := by
        have hcancel : t1 + cfg.debounce_seconds - cfg.debounce_seconds =
            t1 := by ring
        rw [hcancel]
        rw [hptSeg] at hchain
        exact hchain
      have hG := runSched_burst cfg p (l2 ++ [SchedEvent.notify p tN])
        (_schedule_sync cfg p t1 (runSched cfg l1 s0))
        (t1 + cfg.debounce_seconds) hBn hBp hmonoSeg hchainSeg
      have hlast : (pTimes p (l2 ++ [SchedEvent.notify p tN])).getLastD
          (t1 + cfg.debounce_seconds - cfg.debounce_seconds) +
          cfg.debounce_seconds = tN + cfg.debounce_seconds := by
        have hseg : pTimes p (l2 ++ [SchedEvent.notify p tN]) =
            pTimes p l2 ++ [tN] := by
          rw [pTimes_append, pTimes_cons_notify_self]
          rfl
        rw [hseg, getLastD_concat]
      rcases hG with ⟨h1, h2⟩ | ⟨tf, hm, hge, _, _⟩
      · rw [hrw]
        rw [hlast] at h1
        exact ⟨h1, by rw [h2, hBf]⟩
      · exfalso
        rw [hlast] at hge
        have htfmem : tf ∈ l2.map SchedEvent.time := by
          rcases List.mem_append.mp hm with h | h
          · exact List.mem_map_of_mem SchedEvent.time h
          · simp at h
        have hwhole : trPre ++ SchedEvent.notify p tN :: trPost =
            (l1 ++ SchedEvent.notify p t1 :: l2) ++
              (SchedEvent.notify p tN :: trPost) := by
          rw [hl]
        rw [hwhole, List.map_append] at hmono
        have hcross := (List.pairwise_append.mp hmono).2.2
        have hmem1 : tf ∈ (l1 ++ SchedEvent.notify p t1 :: l2).map
            SchedEvent.time := by
          rw [List.map_append, List.map_cons]
          exact List.mem_append.mpr
            (Or.inr (List.mem_cons_of_mem _ htfmem))
        have hmem2 : tN ∈ (SchedEvent.notify p tN :: trPost).map
            SchedEvent.time := by
          rw [List.map_cons]
          exact List.mem_cons_self _ _
        have hle := hcross tf hmem1 tN hmem2
        linarith
  refine ⟨hburst.1, ?_⟩
  have hsplit : trPre ++ SchedEvent.notify p tN :: trPost =
      (trPre ++ [SchedEvent.notify p tN]) ++ trPost := by
    simp
  obtain ⟨tf, h1, h2, _⟩ := runSched_fire cfg p trPost
    (runSched cfg (trPre ++ [SchedEvent.notify p tN]) s0)
    (tN + cfg.debounce_seconds) hpost hburst.1 htick
  refine ⟨tf, h1, ?_⟩
  rw [hsplit, runSched_append, h2, hburst.2]
  rfl

/-- Witness for C3: a burst of two notifications at times 0 and 1 under the
    default 2-second debounce, followed by a tick at time 3. -/
theorem debounce_coalesces_witness :
    pendingFor "content-1".toList
        (runSched defaultConfig
          [SchedEvent.notify "content-1".toList 0,
           SchedEvent.notify "content-1".toList 1] ⟨[], []⟩) =
      [("content-1".toList, 3)] ∧
    ∃ tf, (3 : ℚ) ≤ tf ∧
      firesFor "content-1".toList
          (runSched defaultConfig
            [SchedEvent.notify "content-1".toList 0,
             SchedEvent.notify "content-1".toList 1,
             SchedEvent.tick 3] ⟨[], []⟩) =
        [("content-1".toList, tf)] := by
  have h := debounce_coalesces defaultConfig "content-1".toList ⟨[], []⟩
    [SchedEvent.notify "content-1".toList 0] [SchedEvent.tick 3] 1
    (by norm_num [defaultConfig])
    rfl rfl (by simp)
    (by
      simp only [List.map_cons, List.map_append, List.map_nil,
        List.cons_append, List.nil_append, SchedEvent.time]
      norm_num [List.pairwise_cons])
    (by
      have hpt : pTimes "content-1".toList
          ([SchedEvent.notify "content-1".toList 0] ++
            [SchedEvent.notify "content-1".toList 1]) = [0, 1] := rfl
      rw [hpt]
      norm_num [List.chain'_cons, defaultConfig])
    rfl
    ⟨3, List.mem_cons_self _ _, by norm_num [defaultConfig]⟩
  have h2 : (1 : ℚ) + defaultConfig.debounce_seconds = 3 := by
    norm_num [defaultConfig]
  rw [h2] at h
  exact h

end XpadSync
